import Mathlib

/-!
Verification of the deduplicating news normalizer
(`process_news_data` in `src/producer/producer_company_news.py`).

The Python function is embedded shallowly: JSON-like Python values become the
inductive type `Value`, the in-memory high-water-mark table
`last_seen_news_ids` becomes an explicit total map `String → Int` (the source
reads it only through `.get(symbol, 0)`, so absent entries are the value `0`),
the wall-clock fetch timestamp taken once per call becomes a parameter, and an
uncaught Python exception becomes the `Except.error` branch of the result.
-/

namespace NewsProducer

/-- Python exception classes relevant to the normalizer. The source catches
`TypeError` around the sort (line 118) and `(ValueError, TypeError)` around the
timestamp conversion (line 149); every other class propagates to the caller. -/
inductive PyErr where
  | typeError
  | valueError
  | overflowError
  | attributeError
  deriving DecidableEq, Repr

/-- A JSON-like Python runtime value, as delivered by `response.json()` and
handed to `process_news_data`. A Python `dict` is modelled by its association
list; real dicts bind each key at most once, and lookups read the first
binding. Floats are not modelled; no claim depends on them. -/
inductive Value where
  | none : Value
  | bool : Bool → Value
  | int : Int → Value
  | str : String → Value
  | list : List Value → Value
  | dict : List (String × Value) → Value

/-- Python `d.get(key)` on a dict: the bound value, or `None` when the key is
absent. -/
def dictGet (fields : List (String × Value)) (key : String) : Value :=
  match fields.find? (fun p => p.1 == key) with
  | some p => p.2
  | Option.none => Value.none

/-- Python `isinstance(v, int)`: true for `int` values and for `bool` values
(`bool` is a subclass of `int`). -/
def isInstInt : Value → Bool
  | .int _ => true
  | .bool _ => true
  | _ => false

/-- The integer a Python `int`-or-`bool` value denotes (`True` is `1`,
`False` is `0`); `0` for every other value (only applied under `isInstInt`). -/
def toIntVal : Value → Int
  | .int n => n
  | .bool b => if b then 1 else 0
  | _ => 0

/-- Python `int(v)` on the modelled value types: ints and bools convert,
strings are parsed as a decimal integer (`ValueError` on failure), `None` and
containers raise `TypeError`. -/
def pyInt : Value → Except PyErr Int
  | .int n => .ok n
  | .bool b => .ok (if b then 1 else 0)
  | .str s =>
    match s.toInt? with
    | some n => .ok n
    | Option.none => .error .valueError
  | _ => .error .typeError

/-- Smallest timestamp `datetime` can represent (0001-01-01T00:00:00Z). -/
def MIN_DATETIME_TS : Int := -62135596800

/-- Largest timestamp `datetime` can represent (9999-12-31T23:59:59Z). -/
def MAX_DATETIME_TS : Int := 253402300799

/-- CPython's `datetime.datetime.fromtimestamp(t, tz=datetime.timezone.utc)`
for an integer `t`. A timestamp that does not fit in the signed 64-bit C
`time_t` raises `OverflowError` before any calendar computation; a timestamp
whose year falls outside 1..9999 raises `ValueError` (for years beyond the
platform `gmtime` range CPython raises `OSError` instead, also uncaught by the
producer; that sub-band is modelled as `ValueError` and no claim verdict
depends on it); otherwise the conversion succeeds. The resulting ISO-8601
string is modelled by the instant it denotes. -/
def fromtimestampUTC (t : Int) : Except PyErr Int :=
  if t < -(2 ^ 63) ∨ 2 ^ 63 - 1 < t then .error .overflowError
  else if t < MIN_DATETIME_TS ∨ MAX_DATETIME_TS < t then .error .valueError
  else .ok t

/-- Whether the `except (ValueError, TypeError)` handler around the timestamp
conversion (source line 149) catches an exception class. -/
def caughtByConv (e : PyErr) : Bool :=
  e == .valueError || e == .typeError

/-- The `article_published_utc` computation (source lines 144-150): `None` when
the raw `datetime` field is absent or `None`; on a caught conversion error the
derived field stays `None` and the article survives; an uncaught error (e.g.
`OverflowError`) propagates; otherwise the converted instant. -/
def convUTC (v : Value) : Except PyErr (Option Int) :=
  match v with
  | .none => .ok Option.none
  | w =>
    match pyInt w with
    | .error e => if caughtByConv e then .ok Option.none else .error e
    | .ok t =>
      match fromtimestampUTC t with
      | .error e => if caughtByConv e then .ok Option.none else .error e
      | .ok iso => .ok (some iso)

/-- The `processed_article` record built for each accepted article (source
lines 152-164). `news_id` and `article_published_unix` hold the raw values
verbatim; `article_published_utc` holds the derived instant or is absent. -/
structure NormalizedArticle where
  symbol : String
  news_id : Value
  fetch_timestamp_utc : String
  article_published_unix : Value
  article_published_utc : Option Int
  category : Value
  headline : Value
  summary : Value
  src_field : Value
  url : Value
  image_url : Value

/-- Building one `processed_article` dict, including the timestamp-conversion
try/except (source lines 144-165); fails only on an uncaught conversion
error. -/
def mkArticle (symbol fetchTs : String) (fields : List (String × Value)) :
    Except PyErr NormalizedArticle :=
  match convUTC (dictGet fields "datetime") with
  | .error e => .error e
  | .ok utc =>
    .ok { symbol := symbol
          news_id := dictGet fields "id"
          fetch_timestamp_utc := fetchTs
          article_published_unix := dictGet fields "datetime"
          article_published_utc := utc
          category := dictGet fields "category"
          headline := dictGet fields "headline"
          summary := dictGet fields "summary"
          src_field := dictGet fields "source"
          url := dictGet fields "url"
          image_url := dictGet fields "image" }

/-- The article `mkArticle` yields whenever it does not raise: the derived UTC
field is the successfully converted instant, absent otherwise. -/
def normArticle (symbol fetchTs : String) (fields : List (String × Value)) :
    NormalizedArticle :=
  { symbol := symbol
    news_id := dictGet fields "id"
    fetch_timestamp_utc := fetchTs
    article_published_unix := dictGet fields "datetime"
    article_published_utc :=
      match convUTC (dictGet fields "datetime") with
      | .ok utc => utc
      | .error _ => Option.none
    category := dictGet fields "category"
    headline := dictGet fields "headline"
    summary := dictGet fields "summary"
    src_field := dictGet fields "source"
    url := dictGet fields "url"
    image_url := dictGet fields "image" }

/-- The sort-key lambda (source lines 113-116): for a dict, the pair of the
`datetime` and `id` values when they are ints, `0` in place of a missing or
non-int value. Calling `.get` on a non-dict entry raises `AttributeError`
(which the `except TypeError` around the sort does not catch). -/
def sortKey (x : Value) : Except PyErr (Int × Int) :=
  match x with
  | .dict fields =>
    let dt := dictGet fields "datetime"
    let aid := dictGet fields "id"
    .ok (if isInstInt dt then toIntVal dt else 0,
         if isInstInt aid then toIntVal aid else 0)
  | _ => .error .attributeError

/-- Python's lexicographic order on the `(datetime, id)` key tuples. -/
def keyTupleLE (p q : Int × Int) : Prop :=
  p.1 < q.1 ∨ (p.1 = q.1 ∧ p.2 ≤ q.2)

instance : DecidableRel keyTupleLE := fun p q => by
  unfold keyTupleLE; infer_instance

/-- Order on key-decorated articles: compare the keys only. -/
def keyedLE (p q : (Int × Int) × Value) : Prop := keyTupleLE p.1 q.1

instance : DecidableRel keyedLE := fun p q => by
  unfold keyedLE; infer_instance

instance : IsTotal ((Int × Int) × Value) keyedLE :=
  ⟨by intro a b; unfold keyedLE keyTupleLE; omega⟩

instance : IsTrans ((Int × Int) × Value) keyedLE :=
  ⟨by intro a b c; unfold keyedLE keyTupleLE; omega⟩

/-- The decoration pass of `sorted(..., key=...)`: the key function is applied
to every element before any comparison happens, so a non-dict entry raises
before the first swap. -/
def decorate : List Value → Except PyErr (List ((Int × Int) × Value))
  | [] => .ok []
  | x :: rest =>
    match sortKey x with
    | .error e => .error e
    | .ok k =>
      match decorate rest with
      | .error e => .error e
      | .ok ds => .ok ((k, x) :: ds)

/-- Python `sorted(news_articles_raw, key=...)` (source lines 111-117):
decorate every element with its key, stably sort the decorated list by key,
drop the keys. CPython's sort is stable, and every stable sort computes the
same output list, so it is modelled by stable insertion sort. -/
def trySortArticles (l : List Value) : Except PyErr (List Value) :=
  match decorate l with
  | .error e => .error e
  | .ok keyed => .ok ((keyed.insertionSort keyedLE).map (fun p => p.2))

/-- The per-article loop (source lines 125-165). `premark` is
`last_seen_news_ids.get(symbol_ticker, 0)`: the table is not written inside the
loop, so the re-read in the `elif` of line 133 always yields the pre-call
value. `bm` is `current_max_id_for_symbol_in_batch`. A non-dict entry is
skipped; an article with an int id at most `premark` is skipped; every other
article is emitted, and only an int id can advance `bm`. -/
def processLoop (symbol fetchTs : String) (premark : Int) :
    List Value → Int → Except PyErr (List NormalizedArticle × Int)
  | [], bm => .ok ([], bm)
  | a :: rest, bm =>
    match a with
    | .dict fields =>
      let aid := dictGet fields "id"
      if isInstInt aid && decide (toIntVal aid ≤ premark) then
        processLoop symbol fetchTs premark rest bm
      else
        match mkArticle symbol fetchTs fields with
        | .error e => .error e
        | .ok art =>
          match processLoop symbol fetchTs premark rest
              (if isInstInt aid then max bm (toIntVal aid) else bm) with
          | .error e => .error e
          | .ok (out, bmFin) => .ok (art :: out, bmFin)
    | _ => processLoop symbol fetchTs premark rest bm

/-- The tail of `process_news_data` after sorting (source lines 122-178): run
the loop with `current_max` read once, then conditionally perform the single
high-water-mark write. An uncaught exception propagates before the write, so
the table is returned unchanged in that case. -/
def runBatch (sortedArticles : List Value) (symbol : String)
    (marks : String → Int) (fetchTs : String) :
    Except PyErr (List NormalizedArticle) × (String → Int) :=
  match processLoop symbol fetchTs (marks symbol) sortedArticles (marks symbol) with
  | .error e => (.error e, marks)
  | .ok (out, bm) =>
    (.ok out,
     if marks symbol < bm then Function.update marks symbol bm else marks)

/-- `process_news_data(news_articles_raw, symbol_ticker)` (source lines
96-178). `None` and every other non-list input return an empty list with the
table untouched; a list is sorted (`except TypeError` falls back to the
original order; any other exception from the sort propagates) and then run
through the deduplication loop. The first component is the returned list or
the uncaught exception, the second the high-water-mark table after the call. -/
def process_news_data (raw : Value) (symbol : String) (marks : String → Int)
    (fetchTs : String) :
    Except PyErr (List NormalizedArticle) × (String → Int) :=
  match raw with
  | .list articles =>
    match trySortArticles articles with
    | .ok sortedArticles => runBatch sortedArticles symbol marks fetchTs
    | .error .typeError => runBatch articles symbol marks fetchTs
    | .error e => (.error e, marks)
  | _ => (.ok [], marks)

/-- The sort key of step 2 of the spec's algorithm, stated in the spec's own
words: the pair (publish-time-unix, identifier) of the record, where a missing
or non-integer value in either field counts as 0 for the sort key only. -/
def specKey : Value → Int × Int
  | .dict fields =>
    (if isInstInt (dictGet fields "datetime") then toIntVal (dictGet fields "datetime") else 0,
     if isInstInt (dictGet fields "id") then toIntVal (dictGet fields "id") else 0)
  | _ => (0, 0)

/-- The spec's sort order on raw articles: ascending lexicographic comparison
of the `specKey` pairs. -/
def articleLE (a b : Value) : Prop := keyTupleLE (specKey a) (specKey b)

/-- What one sorted-order entry contributes to the returned sequence: nothing
for a non-dict entry, nothing for an article whose int id is at most the
pre-call mark, the normalized article otherwise. -/
def emitF (symbol fetchTs : String) (premark : Int) (a : Value) :
    Option NormalizedArticle :=
  match a with
  | .dict fields =>
    if isInstInt (dictGet fields "id")
        && decide (toIntVal (dictGet fields "id") ≤ premark) then
      Option.none
    else some (normArticle symbol fetchTs fields)
  | _ => Option.none

/-- What one sorted-order entry contributes to
`current_max_id_for_symbol_in_batch`: only an emitted article with an int id
can raise it. -/
def bmStep (premark : Int) (bm : Int) (a : Value) : Int :=
  match a with
  | .dict fields =>
    if isInstInt (dictGet fields "id")
        && decide (toIntVal (dictGet fields "id") ≤ premark) then
      bm
    else if isInstInt (dictGet fields "id") then
      max bm (toIntVal (dictGet fields "id"))
    else bm
  | _ => bm

/-- The spec scenario batch of claim C9. -/
def batch9 : Value :=
  .list [.dict [("id", .int 5)], .dict [("id", .int 4)], .dict [("id", .int 6)]]

/-- A high-water-mark table whose entry for AAPL is 5. -/
def marks9 : String → Int := fun s => if s = "AAPL" then 5 else 0

/-- A batch holding one otherwise well-formed article whose publish timestamp
2^100 is far out of range. -/
def batchOverflow : Value :=
  .list [.dict [("id", .int 1), ("datetime", .int (2 ^ 100))]]

lemma sortKey_ok {x : Value} {k : Int × Int} (h : sortKey x = .ok k) :
    (∃ fields, x = Value.dict fields) ∧ k = specKey x := by
  cases x <;> simp [sortKey] at h
  exact ⟨⟨_, rfl⟩, by simp [specKey, ← h]⟩

lemma sortKey_err {x : Value} {e : PyErr} (h : sortKey x = .error e) :
    e = PyErr.attributeError := by
  cases x <;> simp [sortKey] at h <;> exact h.symm

lemma decorate_ok : ∀ {l : List Value} {ds},
    decorate l = .ok ds → ds = l.map (fun x => (specKey x, x))
  | [], _, h => by
    unfold decorate at h
    injection h with h
    simp [← h]
  | x :: rest, ds, h => by
    unfold decorate at h
    cases hk : sortKey x with
    | error e => rw [hk] at h; exact absurd h (by simp)
    | ok k =>
      rw [hk] at h
      cases hd : decorate rest with
      | error e => rw [hd] at h; exact absurd h (by simp)
      | ok ds' =>
        rw [hd] at h
        obtain ⟨-, hkey⟩ := sortKey_ok hk
        cases h
        simp [decorate_ok hd, hkey]

lemma decorate_err : ∀ {l : List Value} {e},
    decorate l = .error e → e = PyErr.attributeError
  | [], _, h => by simp [decorate] at h
  | x :: rest, e, h => by
    unfold decorate at h
    cases hk : sortKey x with
    | error e' => rw [hk] at h; cases h; exact sortKey_err hk
    | ok k =>
      rw [hk] at h
      cases hd : decorate rest with
      | error e' => rw [hd] at h; cases h; exact decorate_err hd
      | ok ds' => rw [hd] at h; exact absurd h (by simp)

lemma trySort_ok {l σ} (h : trySortArticles l = .ok σ) :
    σ = (((l.map (fun x => (specKey x, x))).insertionSort keyedLE).map (fun p => p.2)) := by
  unfold trySortArticles at h
  cases hd : decorate l with
  | error e => rw [hd] at h; exact absurd h (by simp)
  | ok keyed => rw [hd] at h; cases h; rw [decorate_ok hd]

lemma trySort_err {l e} (h : trySortArticles l = .error e) :
    e = PyErr.attributeError := by
  unfold trySortArticles at h
  cases hd : decorate l with
  | error e' => rw [hd] at h; cases h; exact decorate_err hd
  | ok keyed => rw [hd] at h; exact absurd h (by simp)

lemma mkArticle_ok {s ts fields a} (h : mkArticle s ts fields = .ok a) :
    a = normArticle s ts fields := by
  unfold mkArticle at h
  cases hc : convUTC (dictGet fields "datetime") with
  | error e => rw [hc] at h; exact absurd h (by simp)
  | ok utc => rw [hc] at h; cases h; simp [normArticle, hc]

lemma processLoop_ok {s ts : String} {pm : Int} : ∀ {l : List Value} {bm : Int}
    {out : List NormalizedArticle} {bmFin : Int},
    processLoop s ts pm l bm = .ok (out, bmFin) →
    out = l.filterMap (emitF s ts pm) ∧ bmFin = l.foldl (bmStep pm) bm
  | [], bm, out, bmFin, h => by
    cases h; exact ⟨rfl, rfl⟩
  | a :: rest, bm, out, bmFin, h => by
    cases a with
    | dict fields =>
      rw [processLoop] at h
      by_cases hc : (isInstInt (dictGet fields "id")
          && decide (toIntVal (dictGet fields "id") ≤ pm)) = true
      · rw [if_pos hc] at h
        obtain ⟨ho, hb⟩ := processLoop_ok h
        have he : emitF s ts pm (Value.dict fields) = Option.none := by
          simp [emitF, hc]
        have hs : bmStep pm bm (Value.dict fields) = bm := by
          simp [bmStep, hc]
        exact ⟨by rw [List.filterMap_cons, he, ho],
               by rw [List.foldl_cons, hs, hb]⟩
      · rw [if_neg hc] at h
        cases hmk : mkArticle s ts fields with
        | error e => rw [hmk] at h; exact absurd h (by simp)
        | ok art =>
          rw [hmk] at h
          cases hrec : processLoop s ts pm rest
              (if isInstInt (dictGet fields "id")
               then max bm (toIntVal (dictGet fields "id")) else bm) with
          | error e => rw [hrec] at h; exact absurd h (by simp)
          | ok p =>
            obtain ⟨out', bmFin'⟩ := p
            rw [hrec] at h
            cases h
            obtain ⟨ho, hb⟩ := processLoop_ok hrec
            have he : emitF s ts pm (Value.dict fields)
                = some (normArticle s ts fields) := by
              simp [emitF, hc]
            have hs : bmStep pm bm (Value.dict fields)
                = (if isInstInt (dictGet fields "id")
                   then max bm (toIntVal (dictGet fields "id")) else bm) := by
              simp [bmStep, hc]
            exact ⟨by rw [List.filterMap_cons, he, ho, mkArticle_ok hmk],
                   by rw [List.foldl_cons, hs, hb]⟩
    | none =>
      simp only [processLoop] at h
      obtain ⟨ho, hb⟩ := processLoop_ok h
      exact ⟨by simp [List.filterMap_cons, emitF, ho], by simp [bmStep, hb]⟩
    | bool b =>
      simp only [processLoop] at h
      obtain ⟨ho, hb⟩ := processLoop_ok h
      exact ⟨by simp [List.filterMap_cons, emitF, ho], by simp [bmStep, hb]⟩
    | int n =>
      simp only [processLoop] at h
      obtain ⟨ho, hb⟩ := processLoop_ok h
      exact ⟨by simp [List.filterMap_cons, emitF, ho], by simp [bmStep, hb]⟩
    | str v =>
      simp only [processLoop] at h
      obtain ⟨ho, hb⟩ := processLoop_ok h
      exact ⟨by simp [List.filterMap_cons, emitF, ho], by simp [bmStep, hb]⟩
    | list v =>
      simp only [processLoop] at h
      obtain ⟨ho, hb⟩ := processLoop_ok h
      exact ⟨by simp [List.filterMap_cons, emitF, ho], by simp [bmStep, hb]⟩

lemma runBatch_snd_shape (σ : List Value) (s : String) (m : String → Int)
    (ts : String) :
    (runBatch σ s m ts).2 = m ∨
      ∃ bm, m s < bm ∧ (runBatch σ s m ts).2 = Function.update m s bm := by
  unfold runBatch
  cases hl : processLoop s ts (m s) σ (m s) with
  | error e => exact Or.inl rfl
  | ok p =>
    obtain ⟨out, bm⟩ := p
    by_cases hb : m s < bm
    · exact Or.inr ⟨bm, hb, by simp [hb]⟩
    · exact Or.inl (by simp [hb])

lemma runBatch_error_snd {σ : List Value} {s : String} {m : String → Int}
    {ts : String} {e : PyErr} (h : (runBatch σ s m ts).1 = .error e) :
    (runBatch σ s m ts).2 = m := by
  unfold runBatch at h ⊢
  cases hl : processLoop s ts (m s) σ (m s) with
  | error e' => rfl
  | ok p => rw [hl] at h; exact absurd h (by simp)

lemma process_snd_shape (raw : Value) (s : String) (m : String → Int)
    (ts : String) :
    (process_news_data raw s m ts).2 = m ∨
      ∃ bm, m s < bm ∧
        (process_news_data raw s m ts).2 = Function.update m s bm := by
  cases raw with
  | list articles =>
    cases htr : trySortArticles articles with
    | ok σ =>
      have he : process_news_data (Value.list articles) s m ts
          = runBatch σ s m ts := by
        simp only [process_news_data, htr]
      rw [he]; exact runBatch_snd_shape σ s m ts
    | error e =>
      cases e with
      | typeError =>
        have he : process_news_data (Value.list articles) s m ts
            = runBatch articles s m ts := by
          simp only [process_news_data, htr]
        rw [he]; exact runBatch_snd_shape articles s m ts
      | valueError => exact Or.inl (by simp only [process_news_data, htr])
      | overflowError => exact Or.inl (by simp only [process_news_data, htr])
      | attributeError => exact Or.inl (by simp only [process_news_data, htr])
  | none => exact Or.inl rfl
  | bool b => exact Or.inl rfl
  | int n => exact Or.inl rfl
  | str v => exact Or.inl rfl
  | dict fields => exact Or.inl rfl

lemma process_error_snd {raw : Value} {s : String} {m : String → Int}
    {ts : String} {e : PyErr}
    (h : (process_news_data raw s m ts).1 = .error e) :
    (process_news_data raw s m ts).2 = m := by
  cases raw with
  | list articles =>
    cases htr : trySortArticles articles with
    | ok σ =>
      have he : process_news_data (Value.list articles) s m ts
          = runBatch σ s m ts := by
        simp only [process_news_data, htr]
      rw [he] at h ⊢; exact runBatch_error_snd h
    | error e' =>
      cases e' with
      | typeError =>
        have he : process_news_data (Value.list articles) s m ts
            = runBatch articles s m ts := by
          simp only [process_news_data, htr]
        rw [he] at h ⊢; exact runBatch_error_snd h
      | valueError => simp only [process_news_data, htr]
      | overflowError => simp only [process_news_data, htr]
      | attributeError => simp only [process_news_data, htr]
  | none => exact absurd h (by simp [process_news_data])
  | bool b => exact absurd h (by simp [process_news_data])
  | int n => exact absurd h (by simp [process_news_data])
  | str v => exact absurd h (by simp [process_news_data])
  | dict fields => exact absurd h (by simp [process_news_data])

lemma process_list_ok {l : List Value} {s : String} {m : String → Int}
    {ts : String} {out : List NormalizedArticle} {m' : String → Int}
    (h : process_news_data (.list l) s m ts = (.ok out, m')) :
    ∃ σ, trySortArticles l = .ok σ ∧
      out = σ.filterMap (emitF s ts (m s)) ∧
      m' = (if m s < σ.foldl (bmStep (m s)) (m s)
            then Function.update m s (σ.foldl (bmStep (m s)) (m s)) else m) := by
  cases htr : trySortArticles l with
  | ok σ =>
    have he : process_news_data (Value.list l) s m ts = runBatch σ s m ts := by
      simp only [process_news_data, htr]
    rw [he] at h
    unfold runBatch at h
    cases hl : processLoop s ts (m s) σ (m s) with
    | error e => rw [hl] at h; simp [Prod.ext_iff] at h
    | ok p =>
      obtain ⟨o, bm⟩ := p
      rw [hl] at h
      obtain ⟨h1, h2⟩ := Prod.mk.injEq .. ▸ h
      obtain ⟨ho, hb⟩ := processLoop_ok hl
      cases h1
      exact ⟨σ, rfl, ho, by rw [← h2, hb]⟩
  | error e =>
    cases e with
    | typeError => exact absurd (trySort_err htr) (by simp)
    | valueError =>
      rw [show process_news_data (Value.list l) s m ts
            = (Except.error PyErr.valueError, m) by
          simp only [process_news_data, htr]] at h
      exact absurd h (by simp [Prod.ext_iff])
    | overflowError =>
      rw [show process_news_data (Value.list l) s m ts
            = (Except.error PyErr.overflowError, m) by
          simp only [process_news_data, htr]] at h
      exact absurd h (by simp [Prod.ext_iff])
    | attributeError =>
      rw [show process_news_data (Value.list l) s m ts
            = (Except.error PyErr.attributeError, m) by
          simp only [process_news_data, htr]] at h
      exact absurd h (by simp [Prod.ext_iff])

lemma mem_decorated {l : List Value} {p : (Int × Int) × Value}
    (h : p ∈ l.map (fun x => (specKey x, x))) : p.1 = specKey p.2 := by
  obtain ⟨x, -, hx⟩ := List.mem_map.mp h
  rw [← hx]

lemma trySort_props {l σ : List Value} (h : trySortArticles l = .ok σ) :
    σ.Perm l ∧ σ.Pairwise articleLE ∧
      ∀ c, List.Sublist c l → c.Pairwise articleLE → List.Sublist c σ := by
  have hσ := trySort_ok h
  set keyed := l.map (fun x => (specKey x, x)) with hkeyed
  have hperm : σ.Perm l := by
    rw [hσ]
    have h1 : (keyed.insertionSort keyedLE).Perm keyed :=
      List.perm_insertionSort keyedLE keyed
    have h2 := h1.map (fun p : (Int × Int) × Value => p.2)
    refine h2.trans ?_
    have h3 : keyed.map (fun p : (Int × Int) × Value => p.2) = l := by
      rw [hkeyed, List.map_map]
      exact List.map_id l
    rw [h3]
  refine ⟨hperm, ?_, ?_⟩
  · have hs : (keyed.insertionSort keyedLE).Pairwise keyedLE :=
      List.sorted_insertionSort keyedLE keyed
    have hmem : ∀ p ∈ keyed.insertionSort keyedLE, p.1 = specKey p.2 := by
      intro p hp
      exact mem_decorated ((List.perm_insertionSort keyedLE keyed).subset hp)
    have hs' : (keyed.insertionSort keyedLE).Pairwise
        (fun p q => articleLE p.2 q.2) := by
      refine hs.imp_of_mem ?_
      intro p q hp hq hle
      unfold keyedLE at hle
      unfold articleLE
      rw [← hmem p hp, ← hmem q hq]
      exact hle
    rw [hσ]
    exact List.pairwise_map.mpr hs'
  · intro c hcl hcp
    have hdec : List.Sublist (c.map (fun x => (specKey x, x))) keyed :=
      hcl.map (fun x => (specKey x, x))
    have hdp : (c.map (fun x => (specKey x, x))).Pairwise keyedLE := by
      refine List.pairwise_map.mpr (hcp.imp ?_)
      intro a b hab
      exact hab
    have hsub := List.sublist_insertionSort hdp hdec
    have := hsub.map (fun p : (Int × Int) × Value => p.2)
    rw [hσ]
    refine ?_
    have hcc : (c.map (fun x => (specKey x, x))).map
        (fun p : (Int × Int) × Value => p.2) = c := by
      rw [List.map_map]
      exact List.map_id c
    rwa [hcc] at this

lemma runBatch_congr {σ : List Value} {s : String} {m1 m2 : String → Int}
    {ts : String} (h : m1 s = m2 s) :
    (runBatch σ s m1 ts).1 = (runBatch σ s m2 ts).1 ∧
    (runBatch σ s m1 ts).2 s = (runBatch σ s m2 ts).2 s := by
  unfold runBatch
  rw [h]
  cases hl : processLoop s ts (m2 s) σ (m2 s) with
  | error e => exact ⟨rfl, h⟩
  | ok p =>
    obtain ⟨out, bm⟩ := p
    refine ⟨rfl, ?_⟩
    show (if m2 s < bm then Function.update m1 s bm else m1) s
        = (if m2 s < bm then Function.update m2 s bm else m2) s
    by_cases hb : m2 s < bm
    · rw [if_pos hb, if_pos hb, Function.update_same, Function.update_same]
    · rw [if_neg hb, if_neg hb]
      exact h

/-- C1: the claim that `process_news_data` never raises for malformed article
data — and that a failed conversion of `article_published_unix` (non-numeric,
out of range) only leaves `article_published_utc` absent — fails on the code:
on a batch holding one article with id 1 and the out-of-range publish
timestamp 2^100, `datetime.datetime.fromtimestamp` raises `OverflowError`,
which the handler for `(ValueError, TypeError)` does not catch, so the call
raises instead of returning a sequence (the table is left untouched). -/
theorem C1_raises_on_out_of_range_timestamp :
    process_news_data batchOverflow "AAPL" (fun _ => 0) "T"
      = (Except.error PyErr.overflowError, fun _ => 0) := rfl

/-- C2: for every input batch, symbol, table and fetch timestamp, the
high-water-mark entry of the symbol after the call is greater than or equal to
its value before the call; no batch ever lowers it. -/
theorem C2_mark_monotone (raw : Value) (s : String) (m : String → Int)
    (ts : String) : m s ≤ (process_news_data raw s m ts).2 s := by
  rcases process_snd_shape raw s m ts with h | ⟨bm, hlt, h⟩
  · rw [h]
  · rw [h, Function.update_same]
    exact le_of_lt hlt

/-- C3: on a call that returns normally, an article of the batch whose id
field is present and an integer is emitted if and only if that id is strictly
greater than the high-water-mark read at the start of the call; acceptance of
a higher id within the same call never changes the rejection threshold, which
is always the pre-call mark. -/
theorem C3_emission_iff_above_precall_mark
    (l : List Value) (s ts : String) (m : String → Int)
    (out : List NormalizedArticle) (m2 : String → Int)
    (hok : process_news_data (.list l) s m ts = (.ok out, m2))
    (fields : List (String × Value)) (n : Int)
    (hmem : Value.dict fields ∈ l) (hid : dictGet fields "id" = Value.int n) :
    normArticle s ts fields ∈ out ↔ m s < n := by
  obtain ⟨σ, htr, hout, -⟩ := process_list_ok hok
  obtain ⟨hperm, -, -⟩ := trySort_props htr
  constructor
  · intro hin
    rw [hout] at hin
    obtain ⟨a, haσ, hfa⟩ := List.mem_filterMap.mp hin
    cases a with
    | dict g =>
      simp only [emitF] at hfa
      by_cases hc : (isInstInt (dictGet g "id")
          && decide (toIntVal (dictGet g "id") ≤ m s)) = true
      · rw [if_pos hc] at hfa
        exact absurd hfa (by simp)
      · rw [if_neg hc] at hfa
        have hart := Option.some.inj hfa
        have hgid : dictGet g "id" = Value.int n := by
          have hni := congrArg NormalizedArticle.news_id hart
          simpa [normArticle, hid] using hni
        rw [hgid] at hc
        simp only [isInstInt, toIntVal, Bool.true_and] at hc
        simp only [decide_eq_true_eq] at hc
        omega
    | none => exact absurd hfa (by simp [emitF])
    | bool b => exact absurd hfa (by simp [emitF])
    | int k => exact absurd hfa (by simp [emitF])
    | str v => exact absurd hfa (by simp [emitF])
    | list v => exact absurd hfa (by simp [emitF])
  · intro hlt
    rw [hout]
    refine List.mem_filterMap.mpr ⟨Value.dict fields, hperm.mem_iff.mpr hmem, ?_⟩
    have hnle : ¬ (n ≤ m s) := not_le.mpr hlt
    simp [emitF, hid, isInstInt, toIntVal, hnle]

/-- C3 witness: with the mark at 5, the single article with id 6 is emitted
(6 is above the pre-call mark). -/
theorem C3_witness :
    (normArticle "AAPL" "T" [("id", Value.int 6)]
        ∈ [normArticle "AAPL" "T" [("id", Value.int 6)]]) ↔ (5 : Int) < 6 :=
  C3_emission_iff_above_precall_mark [Value.dict [("id", Value.int 6)]]
    "AAPL" "T" (fun _ => 5) [normArticle "AAPL" "T" [("id", Value.int 6)]]
    (Function.update (fun _ => 5) "AAPL" 6) (by rfl)
    [("id", Value.int 6)] 6 (List.mem_singleton.mpr rfl) rfl

/-- C4: an article record whose id is missing or not an integer is always
emitted (in any call it appears in, even after the mark has advanced), and its
batch-max update step is the identity, so it never advances the
high-water-mark. -/
theorem C4_invalid_id_passthrough
    (l1 l2 : List Value) (s ts1 ts2 : String) (m m1 m2 : String → Int)
    (out1 out2 : List NormalizedArticle)
    (h1 : process_news_data (.list l1) s m ts1 = (.ok out1, m1))
    (h2 : process_news_data (.list l2) s m1 ts2 = (.ok out2, m2))
    (fields : List (String × Value))
    (hinv : isInstInt (dictGet fields "id") = false)
    (hm1 : Value.dict fields ∈ l1) (hm2 : Value.dict fields ∈ l2) :
    normArticle s ts1 fields ∈ out1 ∧
    normArticle s ts2 fields ∈ out2 ∧
    ∀ premark bm, bmStep premark bm (Value.dict fields) = bm := by
  have hemit : ∀ (ts' : String) (pm : Int),
      emitF s ts' pm (Value.dict fields) = some (normArticle s ts' fields) := by
    intro ts' pm
    simp [emitF, hinv]
  refine ⟨?_, ?_, ?_⟩
  · obtain ⟨σ, htr, hout, -⟩ := process_list_ok h1
    obtain ⟨hperm, -, -⟩ := trySort_props htr
    rw [hout]
    exact List.mem_filterMap.mpr
      ⟨Value.dict fields, hperm.mem_iff.mpr hm1, hemit ts1 (m s)⟩
  · obtain ⟨σ, htr, hout, -⟩ := process_list_ok h2
    obtain ⟨hperm, -, -⟩ := trySort_props htr
    rw [hout]
    exact List.mem_filterMap.mpr
      ⟨Value.dict fields, hperm.mem_iff.mpr hm2, hemit ts2 (m1 s)⟩
  · intro premark bm
    simp [bmStep, hinv]

/-- C4 witness: a headline-only article is emitted in a first call, emitted
again in a second call after the mark advanced to 7 via another article, and
its batch-max step is the identity. -/
theorem C4_witness :
    normArticle "AAPL" "T1" [("headline", Value.str "x")]
        ∈ [normArticle "AAPL" "T1" [("headline", Value.str "x")],
           normArticle "AAPL" "T1" [("id", Value.int 7)]] ∧
    normArticle "AAPL" "T2" [("headline", Value.str "x")]
        ∈ [normArticle "AAPL" "T2" [("headline", Value.str "x")]] ∧
    bmStep 3 4 (Value.dict [("headline", Value.str "x")]) = 4 := by
  have h := C4_invalid_id_passthrough
    [Value.dict [("headline", Value.str "x")], Value.dict [("id", Value.int 7)]]
    [Value.dict [("headline", Value.str "x")]] "AAPL" "T1" "T2"
    (fun _ => 0) (Function.update (fun _ => 0) "AAPL" 7)
    (Function.update (fun _ => 0) "AAPL" 7)
    [normArticle "AAPL" "T1" [("headline", Value.str "x")],
     normArticle "AAPL" "T1" [("id", Value.int 7)]]
    [normArticle "AAPL" "T2" [("headline", Value.str "x")]]
    (by rfl) (by rfl) [("headline", Value.str "x")] (by rfl)
    (List.mem_cons_self _ _) (List.mem_singleton.mpr rfl)
  exact ⟨h.1, h.2.1, h.2.2 3 4⟩

/-- C5: on a call that returns normally, the returned sequence is the
evaluation, in order, of a stable ascending sort of the input on the
(publish-time-unix, identifier) key pair with missing or non-integer values
counting as 0 for the key only: some permutation of the input that is sorted
for the spec key order, contains every already-key-sorted sublist of the input
in its original relative order (stability), and filters to exactly the
returned sequence. -/
theorem C5_emitted_in_stable_sort_order
    (l : List Value) (s ts : String) (m : String → Int)
    (out : List NormalizedArticle) (m2 : String → Int)
    (hok : process_news_data (.list l) s m ts = (.ok out, m2)) :
    ∃ σ : List Value, σ.Perm l ∧ σ.Pairwise articleLE ∧
      (∀ c, List.Sublist c l → c.Pairwise articleLE → List.Sublist c σ) ∧
      out = σ.filterMap (emitF s ts (m s)) := by
  obtain ⟨σ, htr, hout, -⟩ := process_list_ok hok
  obtain ⟨hp, hs, hst⟩ := trySort_props htr
  exact ⟨σ, hp, hs, hst, hout⟩

/-- C5 witness: the spec scenario with ids 5 and 3 at publish times 100 and
50: the call succeeds and some stable sorted order underlies the output. -/
theorem C5_witness :
    ∃ σ : List Value,
      σ.Perm [Value.dict [("id", Value.int 5), ("datetime", Value.int 100)],
              Value.dict [("id", Value.int 3), ("datetime", Value.int 50)]] ∧
      σ.Pairwise articleLE ∧
      (∀ c, List.Sublist c
          [Value.dict [("id", Value.int 5), ("datetime", Value.int 100)],
           Value.dict [("id", Value.int 3), ("datetime", Value.int 50)]] →
        c.Pairwise articleLE → List.Sublist c σ) ∧
      [normArticle "AAPL" "T" [("id", Value.int 3), ("datetime", Value.int 50)],
       normArticle "AAPL" "T" [("id", Value.int 5), ("datetime", Value.int 100)]]
        = σ.filterMap (emitF "AAPL" "T" 0) :=
  C5_emitted_in_stable_sort_order
    [Value.dict [("id", Value.int 5), ("datetime", Value.int 100)],
     Value.dict [("id", Value.int 3), ("datetime", Value.int 50)]]
    "AAPL" "T" (fun _ => 0)
    [normArticle "AAPL" "T" [("id", Value.int 3), ("datetime", Value.int 50)],
     normArticle "AAPL" "T" [("id", Value.int 5), ("datetime", Value.int 100)]]
    (Function.update (fun _ => 0) "AAPL" 5) (by rfl)

/-- C6: a top-level input that is not a list (the fetch-failure sentinel
`None` or any other non-list value) yields an empty returned sequence and
leaves the high-water-mark table untouched. -/
theorem C6_non_list_noop (raw : Value) (s : String) (m : String → Int)
    (ts : String) (h : ∀ l, raw ≠ Value.list l) :
    process_news_data raw s m ts = (.ok [], m) := by
  cases raw with
  | list articles => exact absurd rfl (h articles)
  | none => rfl
  | bool b => rfl
  | int n => rfl
  | str v => rfl
  | dict fields => rfl

/-- C6 witness: the fetch-failure sentinel `None` short-circuits to an empty
result with the table unchanged. -/
theorem C6_witness :
    process_news_data Value.none "AAPL" (fun _ => 0) "T"
      = (.ok [], fun _ => 0) :=
  C6_non_list_noop Value.none "AAPL" (fun _ => 0) "T"
    (fun _ h => Value.noConfusion h)

/-- C7: the only side effect of a call is at most one write to the
high-water-mark table: every other symbol's entry is unchanged, the table is
either untouched or updated at the one symbol with a strictly larger value
decided after the whole batch, and a call that raises leaves the table exactly
as it was (no partial mid-batch update). -/
theorem C7_single_write_frame (raw : Value) (s : String) (m : String → Int)
    (ts : String) :
    (∀ s2, s2 ≠ s → (process_news_data raw s m ts).2 s2 = m s2) ∧
    ((process_news_data raw s m ts).2 = m ∨
      ∃ bm, m s < bm ∧
        (process_news_data raw s m ts).2 = Function.update m s bm) ∧
    (∀ e, (process_news_data raw s m ts).1 = Except.error e →
      (process_news_data raw s m ts).2 = m) := by
  refine ⟨?_, process_snd_shape raw s m ts, fun e he => process_error_snd he⟩
  intro s2 hne
  rcases process_snd_shape raw s m ts with h | ⟨bm, hlt, h⟩
  · rw [h]
  · rw [h]
    exact Function.update_noteq hne bm m

/-- C7 witness: processing an AAPL batch leaves the MSFT entry unchanged. -/
theorem C7_witness :
    (process_news_data batch9 "AAPL" marks9 "T").2 "MSFT" = marks9 "MSFT" :=
  (C7_single_write_frame batch9 "AAPL" marks9 "T").1 "MSFT" (by decide)

/-- C8: the call is deterministic and reads no state besides the symbol's own
mark entry: two runs on the same batch whose tables agree on the symbol
return the same emitted sequence (or the same exception) and the same final
mark for the symbol, whatever the other entries hold. -/
theorem C8_result_depends_only_on_own_mark
    (raw : Value) (s : String) (m1 m2 : String → Int) (ts : String)
    (h : m1 s = m2 s) :
    (process_news_data raw s m1 ts).1 = (process_news_data raw s m2 ts).1 ∧
    (process_news_data raw s m1 ts).2 s = (process_news_data raw s m2 ts).2 s := by
  cases raw with
  | list articles =>
    cases htr : trySortArticles articles with
    | ok σ =>
      have e1 : process_news_data (Value.list articles) s m1 ts
          = runBatch σ s m1 ts := by simp only [process_news_data, htr]
      have e2 : process_news_data (Value.list articles) s m2 ts
          = runBatch σ s m2 ts := by simp only [process_news_data, htr]
      rw [e1, e2]
      exact runBatch_congr h
    | error e =>
      cases e with
      | typeError =>
        have e1 : process_news_data (Value.list articles) s m1 ts
            = runBatch articles s m1 ts := by simp only [process_news_data, htr]
        have e2 : process_news_data (Value.list articles) s m2 ts
            = runBatch articles s m2 ts := by simp only [process_news_data, htr]
        rw [e1, e2]
        exact runBatch_congr h
      | valueError =>
        have e1 : process_news_data (Value.list articles) s m1 ts
            = (Except.error PyErr.valueError, m1) := by
          simp only [process_news_data, htr]
        have e2 : process_news_data (Value.list articles) s m2 ts
            = (Except.error PyErr.valueError, m2) := by
          simp only [process_news_data, htr]
        rw [e1, e2]
        exact ⟨rfl, h⟩
      | overflowError =>
        have e1 : process_news_data (Value.list articles) s m1 ts
            = (Except.error PyErr.overflowError, m1) := by
          simp only [process_news_data, htr]
        have e2 : process_news_data (Value.list articles) s m2 ts
            = (Except.error PyErr.overflowError, m2) := by
          simp only [process_news_data, htr]
        rw [e1, e2]
        exact ⟨rfl, h⟩
      | attributeError =>
        have e1 : process_news_data (Value.list articles) s m1 ts
            = (Except.error PyErr.attributeError, m1) := by
          simp only [process_news_data, htr]
        have e2 : process_news_data (Value.list articles) s m2 ts
            = (Except.error PyErr.attributeError, m2) := by
          simp only [process_news_data, htr]
        rw [e1, e2]
        exact ⟨rfl, h⟩
  | none => exact ⟨rfl, h⟩
  | bool b => exact ⟨rfl, h⟩
  | int n => exact ⟨rfl, h⟩
  | str v => exact ⟨rfl, h⟩
  | dict fields => exact ⟨rfl, h⟩

/-- C8 witness: the scenario batch behaves identically under the constant-5
table and under a table that is 5 at AAPL but 0 elsewhere. -/
theorem C8_witness :
    (process_news_data batch9 "AAPL" (fun _ => 5) "T").1
        = (process_news_data batch9 "AAPL" marks9 "T").1 ∧
    (process_news_data batch9 "AAPL" (fun _ => 5) "T").2 "AAPL"
        = (process_news_data batch9 "AAPL" marks9 "T").2 "AAPL" :=
  C8_result_depends_only_on_own_mark batch9 "AAPL" (fun _ => 5) marks9 "T"
    (by rfl)

/-- C9: with the AAPL mark at 5 and the batch [id 5, id 4, id 6], exactly the
article with id 6 is emitted and the AAPL mark becomes 6. -/
theorem C9_scenario_mark5 :
    (process_news_data batch9 "AAPL" marks9 "T").1
        = Except.ok [normArticle "AAPL" "T" [("id", Value.int 6)]] ∧
    (process_news_data batch9 "AAPL" marks9 "T").2 "AAPL" = 6 :=
  ⟨rfl, rfl⟩

/-- C10: on a call that returns normally, every emitted article is the
normalization of some record of the batch, and normalization copies the raw
id and datetime values into news_id and article_published_unix verbatim,
whatever their type (a non-integer id or datetime is emitted unchanged, not
dropped). -/
theorem C10_news_id_and_published_unix_verbatim
    (l : List Value) (s ts : String) (m : String → Int)
    (out : List NormalizedArticle) (m2 : String → Int)
    (hok : process_news_data (.list l) s m ts = (.ok out, m2)) :
    (∀ art ∈ out, ∃ fields, Value.dict fields ∈ l ∧
        art = normArticle s ts fields) ∧
    (∀ fields, (normArticle s ts fields).news_id = dictGet fields "id" ∧
      (normArticle s ts fields).article_published_unix
          = dictGet fields "datetime") := by
  obtain ⟨σ, htr, hout, -⟩ := process_list_ok hok
  obtain ⟨hperm, -, -⟩ := trySort_props htr
  refine ⟨?_, fun fields => ⟨rfl, rfl⟩⟩
  intro art hin
  rw [hout] at hin
  obtain ⟨a, haσ, hfa⟩ := List.mem_filterMap.mp hin
  cases a with
  | dict g =>
    refine ⟨g, hperm.subset haσ, ?_⟩
    simp only [emitF] at hfa
    by_cases hc : (isInstInt (dictGet g "id")
        && decide (toIntVal (dictGet g "id") ≤ m s)) = true
    · rw [if_pos hc] at hfa
      exact absurd hfa (by simp)
    · rw [if_neg hc] at hfa
      exact (Option.some.inj hfa).symm
  | none => exact absurd hfa (by simp [emitF])
  | bool b => exact absurd hfa (by simp [emitF])
  | int k => exact absurd hfa (by simp [emitF])
  | str v => exact absurd hfa (by simp [emitF])
  | list v => exact absurd hfa (by simp [emitF])

/-- C10 witness: an article whose id is the string "abc" and whose datetime is
missing is emitted with news_id equal to that string (not absent) and
article_published_unix equal to None. -/
theorem C10_witness :
    (normArticle "AAPL" "T" [("id", Value.str "abc")]).news_id
        = Value.str "abc" ∧
    (normArticle "AAPL" "T" [("id", Value.str "abc")]).article_published_unix
        = Value.none := by
  have h := C10_news_id_and_published_unix_verbatim
    [Value.dict [("id", Value.str "abc")]] "AAPL" "T" (fun _ => 0)
    [normArticle "AAPL" "T" [("id", Value.str "abc")]] (fun _ => 0) (by rfl)
  exact ⟨(h.2 [("id", Value.str "abc")]).1, (h.2 [("id", Value.str "abc")]).2⟩

end NewsProducer
